import Mathlib

/-!
Verification development for the infinite-landscape parallax renderer.

The development shallowly embeds the numeric core of the repository:

* the HSB color record and the color pipeline of
  src/components/MountainLayer.tsx (hsbToRgb, lerpColor, getColorForDepth),
  over exact rationals, since that code is pure arithmetic on JS numbers;
* the Perlin noise class of src/utils/perlin.ts (seeded shuffle, fade,
  grad, noise) over the reals;
* the cylindrical projector, the motion controller and the terrain
  generation loop of src/App.tsx and src/components/MountainLayer.tsx
  (frontness, z-index, oval vertical position, wheel speed multiplier,
  momentum decay, easing, mountain height columns) over the reals.

JS `Math.floor` is `Int.floor`, `Math.round` is floor of x + 1/2,
`Math.sign` is the three-valued sign, the JS remainder `%` is the
truncated-division remainder `jsMod`, and `Math.pow` on a nonnegative
base is real rpow.
-/

namespace Landscape

/-- HSB color record `{h, s, b, a}` as used throughout App.tsx and
MountainLayer.tsx; the `a` channel is the non-standard alpha scale in
`[0, 360]`. -/
structure Color where
  h : ℚ
  s : ℚ
  b : ℚ
  a : ℚ
deriving DecidableEq, Repr

instance : Inhabited Color := ⟨⟨0, 0, 0, 0⟩⟩

/-- The rgba quadruple denoted by the string
`rgba(${r}, ${g}, ${b}, ${alpha})` that `hsbToRgb` emits: three rounded
integer channels and the exact alpha. -/
structure Rgba where
  r : ℤ
  g : ℤ
  b : ℤ
  alpha : ℚ
deriving DecidableEq, Repr

/-- JS `Math.round`: round half towards positive infinity. -/
def jsRound (x : ℚ) : ℤ := ⌊x + 1 / 2⌋

/-- The inner `hueToRgb` helper of `hsbToRgb`
(MountainLayer.tsx lines 102-109). -/
def hueToRgb (p q t : ℚ) : ℚ :=
  let t1 := if t < 0 then t + 1 else t
  let t2 := if t1 > 1 then t1 - 1 else t1
  if t2 < 1 / 6 then p + (q - p) * 6 * t2
  else if t2 < 1 / 2 then q
  else if t2 < 2 / 3 then p + (q - p) * (2 / 3 - t2) * 6
  else p

/-- `hsbToRgb(h, s, b, a)` of MountainLayer.tsx lines 91-119, with the
emitted string represented by its `Rgba` quadruple. -/
def hsbToRgb (h s b a : ℚ) : Rgba :=
  let h' := h / 360
  let s' := s / 100
  let b' := b / 100
  let alpha := a / 360
  if s' = 0 then
    ⟨jsRound (b' * 255), jsRound (b' * 255), jsRound (b' * 255), alpha⟩
  else
    let q := if b' < 1 / 2 then b' * (1 + s') else b' + s' - b' * s'
    let p := 2 * b' - q
    ⟨jsRound (hueToRgb p q (h' + 1 / 3) * 255),
     jsRound (hueToRgb p q h' * 255),
     jsRound (hueToRgb p q (h' - 1 / 3) * 255),
     alpha⟩

/-- The standard HSB(HSV) to RGB conversion, written from the spec's words
("standard HSB-to-RGB conversion; alpha = alphaScale/360") for comparison
with the source's `hsbToRgb`: chroma `c = v*s`, secondary component
`x = c*(1 - |h' mod 2 - 1|)` on the hue sextant `h' = h/60`, offset
`m = v - c`. -/
def hsvToRgbStd (h s b a : ℚ) : Rgba :=
  let v := b / 100
  let s' := s / 100
  let alpha := a / 360
  let c := v * s'
  let h' := h / 60
  let hmod := h' - 2 * ⌊h' / 2⌋
  let x := c * (1 - |hmod - 1|)
  let m := v - c
  let rgb1 : ℚ × ℚ × ℚ :=
    if h' < 1 then (c, x, 0)
    else if h' < 2 then (x, c, 0)
    else if h' < 3 then (0, c, x)
    else if h' < 4 then (0, x, c)
    else if h' < 5 then (x, 0, c)
    else (c, 0, x)
  ⟨jsRound ((rgb1.1 + m) * 255), jsRound ((rgb1.2.1 + m) * 255),
   jsRound ((rgb1.2.2 + m) * 255), alpha⟩

/-- `lerpColor(c1, c2, t)` of MountainLayer.tsx lines 125-132. -/
def lerpColor (c1 c2 : Color) (t : ℚ) : Color :=
  ⟨c1.h + (c2.h - c1.h) * t,
   c1.s + (c2.s - c1.s) * t,
   c1.b + (c2.b - c1.b) * t,
   c1.a + (c2.a - c1.a) * t⟩

/-- `getColorForDepth(depth, palette)` of MountainLayer.tsx lines 135-149.
Out-of-range array reads (possible only on the empty palette) are given the
default color, matching that JS would produce `undefined` there. -/
def getColorForDepth (depth : ℚ) (palette : List Color) : Color :=
  if depth ≤ 0 then palette.getD 0 default
  else if 1 ≤ depth then palette.getD (palette.length - 1) default
  else
    let scaled := depth * ((palette.length : ℚ) - 1)
    let index : ℤ := ⌊scaled⌋
    let t := scaled - (index : ℚ)
    if ((palette.length : ℤ) - 1) ≤ index then palette.getD (palette.length - 1) default
    else
      lerpColor (palette.getD index.toNat default) (palette.getD (index.toNat + 1) default) t

/-- The same computation as `getColorForDepth` but with every palette read
checked: returns `none` exactly when some array access is out of bounds. -/
def getColorForDepthChecked (depth : ℚ) (palette : List Color) : Option Color :=
  if depth ≤ 0 then palette.get? 0
  else if 1 ≤ depth then palette.get? (palette.length - 1)
  else
    let scaled := depth * ((palette.length : ℚ) - 1)
    let index : ℤ := ⌊scaled⌋
    let t := scaled - (index : ℚ)
    if ((palette.length : ℤ) - 1) ≤ index then palette.get? (palette.length - 1)
    else
      (palette.get? index.toNat).bind fun c1 =>
        (palette.get? (index.toNat + 1)).bind fun c2 =>
          some (lerpColor c1 c2 t)

noncomputable section

/-- JS truncation towards zero, as used by the JS `%` operator. -/
def jsTrunc (x : ℝ) : ℤ := if 0 ≤ x then ⌊x⌋ else ⌈x⌉

/-- The JS remainder operator `x % y`: `x - y * trunc(x / y)`. -/
def jsMod (x y : ℝ) : ℝ := x - y * (jsTrunc (x / y) : ℝ)

/-- JS `Math.sign`. -/
def jsSign (x : ℝ) : ℝ := if x < 0 then -1 else if 0 < x then 1 else 0

/-- The fade curve `t*t*t*(t*(t*6-15)+10)` of perlin.ts line 34. -/
def fade (t : ℝ) : ℝ := t * t * t * (t * (t * 6 - 15) + 10)

/-- Linear interpolation `a + t*(b-a)` of perlin.ts line 38. -/
def lerp (t a b : ℝ) : ℝ := a + t * (b - a)

/-- The gradient selector of perlin.ts lines 41-46.  `hash & 15` is
`hash % 16`, `h & 1` and `h & 2` test the low two bits. -/
def grad (hash : ℕ) (x y : ℝ) : ℝ :=
  let h := hash % 16
  let u := if h < 8 then x else y
  let v := if h < 4 then y else if h = 12 ∨ h = 14 then x else 0
  (if h % 2 = 0 then u else -u) + (if h % 4 < 2 then v else -v)

/-- The local `result` of `noise` (perlin.ts lines 65-69): the raw
gradient-noise value before the final `(result+1)/2` remapping.
The lookup table is abstracted as `p : ℕ → ℕ`; the class's 512-entry
`this.p` array is `fun i => permutation[i % 256]` on its domain. -/
def rawNoise (p : ℕ → ℕ) (x y : ℝ) : ℝ :=
  let X : ℕ := (Int.emod ⌊x⌋ 256).toNat
  let Y : ℕ := (Int.emod ⌊y⌋ 256).toNat
  let xf := x - (⌊x⌋ : ℝ)
  let yf := y - (⌊y⌋ : ℝ)
  let u := fade xf
  let v := fade yf
  let a := p X + Y
  let aa := p a
  let ab := p (a + 1)
  let b := p (X + 1) + Y
  let ba := p b
  let bb := p (b + 1)
  lerp v
    (lerp u (grad (p aa) xf yf) (grad (p ba) (xf - 1) yf))
    (lerp u (grad (p ab) xf (yf - 1)) (grad (p bb) (xf - 1) (yf - 1)))

/-- `noise(x, y)` of perlin.ts lines 48-72: the raw result normalized
to `[0, 1]`. -/
def noise (p : ℕ → ℕ) (x y : ℝ) : ℝ := (rawNoise p x y + 1) / 2

/-- One swap `[a[i], a[j]] = [a[j], a[i]]` on the permutation list. -/
def listSwap (l : List ℕ) (i j : ℕ) : List ℕ :=
  (l.set i (l.getD j 0)).set j (l.getD i 0)

/-- One iteration of the seeded Fisher-Yates loop of the constructor
(perlin.ts lines 14-17) together with the `seededRandom` state update
`s = Math.sin(s) * 10000; return s - Math.floor(s)` (lines 25-31).
State: (current permutation list, current generator state). -/
def shuffleStep (st : List ℕ × ℝ) (i : ℕ) : List ℕ × ℝ :=
  let s' := Real.sin st.2 * 10000
  let r := s' - (⌊s'⌋ : ℝ)
  let j := (⌊r * ((i : ℝ) + 1)⌋).toNat
  (listSwap st.1 i j, s')

/-- The 256-entry permutation table built by the `PerlinNoise`
constructor from a seed: the identity table shuffled by the seeded
generator, with the loop index running 255 down to 1. -/
def permutationTable (seed : ℝ) : List ℕ :=
  (((List.range 255).reverse.map (fun k => k + 1)).foldl shuffleStep
    (List.range 256, seed)).1

/-- A `PerlinNoise` instance: its constructor-time permutation table
(immutable thereafter). -/
structure Perlin where
  permutation : List ℕ

/-- `new PerlinNoise(seed)`. -/
def mkPerlin (seed : ℝ) : Perlin := ⟨permutationTable seed⟩

/-- The 512-entry doubled lookup array `this.p` of the instance:
`p[i] = permutation[i % 256]` (perlin.ts lines 19-22). -/
def Perlin.lookup (pl : Perlin) (i : ℕ) : ℕ := pl.permutation.getD (i % 256) 0

/-- `instance.noise(x, y)` on a constructed instance. -/
def Perlin.noiseAt (pl : Perlin) (x y : ℝ) : ℝ := noise pl.lookup x y

/-- `noise.noise` on the instance `new PerlinNoise(seed)`. -/
def noiseOfSeed (seed x y : ℝ) : ℝ := (mkPerlin seed).noiseAt x y

/-! ### Cylindrical projector and motion controller (App.tsx, first file) -/

/-- `SCROLL_SENSITIVITY` (App.tsx line 39). -/
def SCROLL_SENSITIVITY : ℝ := 25 / 100

/-- `EASE` (App.tsx line 40). -/
def EASE : ℝ := 12 / 100

/-- `MOMENTUM_DECAY` (App.tsx line 41). -/
def MOMENTUM_DECAY : ℝ := 94 / 100

/-- `MIN_VELOCITY` (App.tsx line 42). -/
def MIN_VELOCITY : ℝ := 2 / 100

/-- `ROTATION_SPEED` (App.tsx line 47). -/
def ROTATION_SPEED : ℝ := 2 / 10000

/-- `OVAL_ELLIPTICAL_FACTOR` (App.tsx line 55). -/
def OVAL_ELLIPTICAL_FACTOR : ℝ := 3

/-- `CULLING_FRONTNESS_THRESHOLD` (App.tsx line 58). -/
def CULLING_FRONTNESS_THRESHOLD : ℝ := 1 / 10

/-- The double-mod rotation
`((virtualScroll * ROTATION_SPEED) % (2π) + 2π) % (2π)`
(App.tsx line 322 and identically lines 73, 236). -/
def baseRotation (virtualScroll : ℝ) : ℝ :=
  jsMod (jsMod (virtualScroll * ROTATION_SPEED) (2 * Real.pi) + 2 * Real.pi) (2 * Real.pi)

/-- Frontness of layer `i` of `N` at scroll `v`:
`(cos((i/N) * 2π + baseRotation) + 1) / 2` (App.tsx lines 328-330). -/
def frontness (N : ℕ) (v : ℝ) (i : ℕ) : ℝ :=
  (Real.cos ((i : ℝ) / (N : ℝ) * Real.pi * 2 + baseRotation v) + 1) / 2

/-- The computed z-index of layer `i` of `N` at scroll `v`:
`1000 + floor(frontness * 100000) + index * 10 + (N - index) * 100`
(App.tsx lines 361-362). -/
def zIndexOf (N : ℕ) (v : ℝ) (i : ℕ) : ℤ :=
  1000 + ⌊frontness N v i * 100000⌋ + (i : ℤ) * 10 + ((N : ℤ) - (i : ℤ)) * 100

/-- The oval vertical position computed from an angle:
`sign(sin θ) * |sin θ|^(1/(1+k)) * (1 - k*0.3)` with
`k = OVAL_ELLIPTICAL_FACTOR` (App.tsx lines 237-238, 342-343). -/
def ovalVerticalPosition (angle : ℝ) : ℝ :=
  jsSign (Real.sin angle) *
    |Real.sin angle| ^ (1 / (1 + OVAL_ELLIPTICAL_FACTOR)) *
    (1 - OVAL_ELLIPTICAL_FACTOR * (3 / 10))

/-- The wheel/touch/key speed multiplier at a given scroll position
(App.tsx lines 236-242): `1 - (|oval| - 0.6)/(1 - 0.6) * 0.8` above the
`0.6` threshold, else `1`. -/
def speedMultiplier (virtualScroll : ℝ) : ℝ :=
  let oval := ovalVerticalPosition (baseRotation virtualScroll)
  if 6 / 10 < |oval| then 1 - (|oval| - 6 / 10) / (1 - 6 / 10) * (8 / 10) else 1

/-- The velocity after `handleWheel` (App.tsx lines 230-245):
`velocity + (-deltaY * SCROLL_SENSITIVITY) * speedMultiplier`. -/
def wheelVelocityUpdate (virtualScroll velocity deltaY : ℝ) : ℝ :=
  velocity + (-deltaY * SCROLL_SENSITIVITY) * speedMultiplier virtualScroll

/-- The per-tick momentum update of `animate` (App.tsx lines 178-184):
decay by `MOMENTUM_DECAY`, clamped to exactly `0` below `MIN_VELOCITY`;
a zero velocity is left untouched. -/
def velocityStep (v : ℝ) : ℝ :=
  if v ≠ 0 then
    let w := v * MOMENTUM_DECAY
    if |w| < MIN_VELOCITY then 0 else w
  else v

/-- The per-tick easing of `animate` (App.tsx lines 186-190):
`next = v + (target - v) * EASE`, committed only when
`|next - v| > 0.001`. -/
def easeStep (target v : ℝ) : ℝ :=
  let next := v + (target - v) * EASE
  if 1 / 1000 < |next - v| then next else v

/-! ### Terrain generation loop (MountainLayer.tsx lines 48-79) -/

/-- The silhouette column loop: `n` remaining columns starting at
accumulated phase `dx`; each column is
`referenceY + 10*amp*sin(2dx/amp + a) + cAmp*amp*sin(5dx/amp + b)
 + dAmp*amp*noise(1.2dx/amp + e, 0) + 1.7*amp*noise(10dx, 0)`
and the loop advances `dx += 0.02`. -/
def mountainColumns (p : ℕ → ℕ) (amp refY a b cAmp dAmp e : ℝ) :
    ℕ → ℝ → List ℝ
  | 0, _ => []
  | Nat.succ n, dx =>
      (refY + 10 * amp * Real.sin (2 * dx / amp + a)
        + cAmp * amp * Real.sin (5 * dx / amp + b)
        + dAmp * amp * noise p (12 / 10 * dx / amp + e) 0
        + 17 / 10 * amp * noise p (10 * dx) 0)
      :: mountainColumns p amp refY a b cAmp dAmp e n (dx + 2 / 100)

/-- The height profile produced by the shape-generation effect of
MountainLayer.tsx lines 48-79: one column per integer `x` in
`[0, width)`, with the noise instance `new PerlinNoise(seed + layerIndex)`
and drawn parameters `a, b, cAmp, dAmp, e` passed explicitly. -/
def mountainHeights (seed layerIndex : ℝ) (width : ℕ)
    (amp refY a b cAmp dAmp e : ℝ) : List ℝ :=
  mountainColumns (mkPerlin (seed + layerIndex)).lookup amp refY a b cAmp dAmp e width 0

end

/-! ## Helper lemmas about the fade curve, lerp and the gradients -/

theorem fade_nonneg {t : ℝ} (h0 : 0 ≤ t) : 0 ≤ fade t := by
  have key : fade t = t ^ 3 * (3 / 8 * (4 * t - 5) ^ 2 + 5 / 8) := by
    unfold fade; ring
  rw [key]
  positivity

theorem fade_le_one {t : ℝ} (h1 : t ≤ 1) : fade t ≤ 1 := by
  have key : 1 - fade t = fade (1 - t) := by unfold fade; ring
  have h := fade_nonneg (t := 1 - t) (by linarith)
  linarith

theorem fade_weighted_le {t : ℝ} (h0 : 0 ≤ t) (h1 : t ≤ 1) :
    t + fade t * (1 - 2 * t) ≤ 1 / 2 := by
  have key : t + fade t * (1 - 2 * t) - 1 / 2
      = -2 * ((t - 1 / 2) ^ 2 * (6 * t ^ 2 * (t - 1) ^ 2 + 2 * t * (1 - t) + 1)) := by
    unfold fade; ring
  have hB : 0 ≤ 6 * t ^ 2 * (t - 1) ^ 2 + 2 * t * (1 - t) + 1 := by
    have h2 : 0 ≤ 2 * t * (1 - t) := by nlinarith
    have h6 : 0 ≤ 6 * t ^ 2 * (t - 1) ^ 2 := by positivity
    linarith
  have hAB : 0 ≤ (t - 1 / 2) ^ 2 * (6 * t ^ 2 * (t - 1) ^ 2 + 2 * t * (1 - t) + 1) :=
    mul_nonneg (sq_nonneg _) hB
  linarith

theorem lerp_le_lerp {t a b a' b' : ℝ} (h0 : 0 ≤ t) (h1 : t ≤ 1)
    (ha : a ≤ a') (hb : b ≤ b') : lerp t a b ≤ lerp t a' b' := by
  unfold lerp
  nlinarith [mul_nonneg h0 (sub_nonneg.mpr hb),
    mul_nonneg (by linarith : (0:ℝ) ≤ 1 - t) (sub_nonneg.mpr ha)]

theorem abs_grad_le (h : ℕ) (x y : ℝ) : |grad h x y| ≤ |x| + |y| := by
  have hx1 := le_abs_self x
  have hx2 := neg_abs_le x
  have hy1 := le_abs_self y
  have hy2 := neg_abs_le y
  rw [abs_le]
  simp only [grad]
  split_ifs <;> constructor <;> first | linarith | (exfalso; omega)

theorem noiseCore_bounds {xf yf g00 g10 g01 g11 : ℝ}
    (hx0 : 0 ≤ xf) (hx1 : xf ≤ 1) (hy0 : 0 ≤ yf) (hy1 : yf ≤ 1)
    (hg00 : |g00| ≤ xf + yf) (hg10 : |g10| ≤ 1 - xf + yf)
    (hg01 : |g01| ≤ xf + (1 - yf)) (hg11 : |g11| ≤ 1 - xf + (1 - yf)) :
    -1 ≤ lerp (fade yf) (lerp (fade xf) g00 g10) (lerp (fade xf) g01 g11) ∧
      lerp (fade yf) (lerp (fade xf) g00 g10) (lerp (fade xf) g01 g11) ≤ 1 := by
  have hu0 : 0 ≤ fade xf := fade_nonneg hx0
  have hu1 : fade xf ≤ 1 := fade_le_one hx1
  have hv0 : 0 ≤ fade yf := fade_nonneg hy0
  have hv1 : fade yf ≤ 1 := fade_le_one hy1
  have hwx := fade_weighted_le hx0 hx1
  have hwy := fade_weighted_le hy0 hy1
  constructor
  · have L1 : lerp (fade xf) (-(xf + yf)) (-(1 - xf + yf)) ≤ lerp (fade xf) g00 g10 :=
      lerp_le_lerp hu0 hu1 (abs_le.mp hg00).1 (abs_le.mp hg10).1
    have L2 : lerp (fade xf) (-(xf + (1 - yf))) (-(1 - xf + (1 - yf))) ≤
        lerp (fade xf) g01 g11 :=
      lerp_le_lerp hu0 hu1 (abs_le.mp hg01).1 (abs_le.mp hg11).1
    have L3 : lerp (fade yf) (lerp (fade xf) (-(xf + yf)) (-(1 - xf + yf)))
          (lerp (fade xf) (-(xf + (1 - yf))) (-(1 - xf + (1 - yf)))) ≤
        lerp (fade yf) (lerp (fade xf) g00 g10) (lerp (fade xf) g01 g11) :=
      lerp_le_lerp hv0 hv1 L1 L2
    have L4 : lerp (fade yf) (lerp (fade xf) (-(xf + yf)) (-(1 - xf + yf)))
          (lerp (fade xf) (-(xf + (1 - yf))) (-(1 - xf + (1 - yf)))) =
        -((xf + fade xf * (1 - 2 * xf)) + (yf + fade yf * (1 - 2 * yf))) := by
      unfold lerp; ring
    rw [L4] at L3
    linarith
  · have U1 : lerp (fade xf) g00 g10 ≤ lerp (fade xf) (xf + yf) (1 - xf + yf) :=
      lerp_le_lerp hu0 hu1 (abs_le.mp hg00).2 (abs_le.mp hg10).2
    have U2 : lerp (fade xf) g01 g11 ≤
        lerp (fade xf) (xf + (1 - yf)) (1 - xf + (1 - yf)) :=
      lerp_le_lerp hu0 hu1 (abs_le.mp hg01).2 (abs_le.mp hg11).2
    have U3 : lerp (fade yf) (lerp (fade xf) g00 g10) (lerp (fade xf) g01 g11) ≤
        lerp (fade yf) (lerp (fade xf) (xf + yf) (1 - xf + yf))
          (lerp (fade xf) (xf + (1 - yf)) (1 - xf + (1 - yf))) :=
      lerp_le_lerp hv0 hv1 U1 U2
    have U4 : lerp (fade yf) (lerp (fade xf) (xf + yf) (1 - xf + yf))
          (lerp (fade xf) (xf + (1 - yf)) (1 - xf + (1 - yf))) =
        (xf + fade xf * (1 - 2 * xf)) + (yf + fade yf * (1 - 2 * yf)) := by
      unfold lerp; ring
    rw [U4] at U3
    linarith

theorem rawNoise_bounds (p : ℕ → ℕ) (x y : ℝ) :
    -1 ≤ rawNoise p x y ∧ rawNoise p x y ≤ 1 := by
  have hx0 : (0:ℝ) ≤ x - (⌊x⌋ : ℝ) := by
    have := Int.floor_le x; linarith
  have hx1 : x - (⌊x⌋ : ℝ) ≤ 1 := by
    have := Int.lt_floor_add_one x; linarith
  have hy0 : (0:ℝ) ≤ y - (⌊y⌋ : ℝ) := by
    have := Int.floor_le y; linarith
  have hy1 : y - (⌊y⌋ : ℝ) ≤ 1 := by
    have := Int.lt_floor_add_one y; linarith
  simp only [rawNoise]
  refine noiseCore_bounds hx0 hx1 hy0 hy1 ?_ ?_ ?_ ?_
  · refine (abs_grad_le _ _ _).trans ?_
    rw [abs_of_nonneg hx0, abs_of_nonneg hy0]
  · refine (abs_grad_le _ _ _).trans ?_
    rw [abs_of_nonpos (by linarith : x - (⌊x⌋ : ℝ) - 1 ≤ 0), abs_of_nonneg hy0]
    linarith
  · refine (abs_grad_le _ _ _).trans ?_
    rw [abs_of_nonneg hx0, abs_of_nonpos (by linarith : y - (⌊y⌋ : ℝ) - 1 ≤ 0)]
    linarith
  · refine (abs_grad_le _ _ _).trans ?_
    rw [abs_of_nonpos (by linarith : x - (⌊x⌋ : ℝ) - 1 ≤ 0),
      abs_of_nonpos (by linarith : y - (⌊y⌋ : ℝ) - 1 ≤ 0)]
    linarith

/-- C4: for every seed and every real pair (x, y), the value
`PerlinNoise.noise(x, y)` of the instance constructed from the seed lies in
the closed interval [0, 1], and the raw gradient-noise `result` lies in
[-1, 1] before the `(result + 1) / 2` remapping. -/
theorem noise_range_unit (seed x y : ℝ) :
    (0 ≤ noiseOfSeed seed x y ∧ noiseOfSeed seed x y ≤ 1) ∧
      (-1 ≤ rawNoise (mkPerlin seed).lookup x y ∧
        rawNoise (mkPerlin seed).lookup x y ≤ 1) := by
  have h := rawNoise_bounds (mkPerlin seed).lookup x y
  refine ⟨⟨?_, ?_⟩, h⟩ <;>
    · unfold noiseOfSeed Perlin.noiseAt noise
      linarith [h.1, h.2]

/-- C5: the embedded `PerlinNoise` is deterministic: two instances
constructed from the same seed carry identical permutation tables and
return identical results from `noise(x, y)`.  The construction consumes
only the seed (through the sine-based generator), and `noise` reads the
instance without mutating it, so repeated calls agree as well. -/
theorem perlin_deterministic (s x y : ℝ) (p₁ p₂ : Perlin)
    (h₁ : p₁ = mkPerlin s) (h₂ : p₂ = mkPerlin s) :
    p₁.permutation = p₂.permutation ∧ p₁.noiseAt x y = p₂.noiseAt x y := by
  subst h₁
  subst h₂
  exact ⟨rfl, rfl⟩

/-- Witness for the determinism theorem at seed 42 and the origin. -/
theorem perlin_deterministic_witness :
    (mkPerlin 42).permutation = (mkPerlin 42).permutation ∧
      (mkPerlin 42).noiseAt 0 0 = (mkPerlin 42).noiseAt 0 0 :=
  perlin_deterministic 42 0 0 (mkPerlin 42) (mkPerlin 42) rfl rfl

/-! ## Color conversion (C2) -/

/-- C2 counterexample: on the saturated bright input (h, s, b, alphaScale)
= (0, 100, 100, 360) the source `hsbToRgb` emits white, while the standard
HSB(HSV) conversion of those channels is pure red, so the conversion is not
the standard HSB-to-RGB one. -/
theorem hsbToRgb_not_standard :
    hsbToRgb 0 100 100 360 = ⟨255, 255, 255, 1⟩ ∧
      hsvToRgbStd 0 100 100 360 = ⟨255, 0, 0, 1⟩ ∧
      hsbToRgb 0 100 100 360 ≠ hsvToRgbStd 0 100 100 360 := by
  have h1 : hsbToRgb 0 100 100 360 = ⟨255, 255, 255, 1⟩ := by
    simp only [hsbToRgb, hueToRgb, jsRound]
    norm_num
  have h2 : hsvToRgbStd 0 100 100 360 = ⟨255, 0, 0, 1⟩ := by
    simp only [hsvToRgbStd, jsRound]
    norm_num
  refine ⟨h1, h2, ?_⟩
  rw [h1, h2]
  simp

/-- C2 (amended): `hsbToRgb` uses the HSL-style hue-to-rgb scheme with the
`b` channel as lightness rather than the standard HSB(HSV) conversion; the
alpha component it emits always equals `alphaScale / 360`, and for `s = 0`
all three channels are the achromatic level `round(255 * b / 100)`. -/
theorem hsbToRgb_alpha_and_gray (h s b a : ℚ) :
    (hsbToRgb h s b a).alpha = a / 360 ∧
      (s = 0 → hsbToRgb h s b a =
        ⟨jsRound (b / 100 * 255), jsRound (b / 100 * 255),
         jsRound (b / 100 * 255), a / 360⟩) := by
  constructor
  · simp only [hsbToRgb]
    split_ifs <;> rfl
  · intro hs
    subst hs
    simp only [hsbToRgb]
    rw [if_pos (by norm_num)]

/-- Witness for the amended C2 theorem at (120, 0, 50, 180). -/
theorem hsbToRgb_alpha_and_gray_witness :
    (hsbToRgb 120 0 50 180).alpha = 180 / 360 ∧
      hsbToRgb 120 0 50 180 =
        ⟨jsRound (50 / 100 * 255), jsRound (50 / 100 * 255),
         jsRound (50 / 100 * 255), 180 / 360⟩ :=
  ⟨(hsbToRgb_alpha_and_gray 120 0 50 180).1,
   (hsbToRgb_alpha_and_gray 120 0 50 180).2 rfl⟩

/-! ## Oval position and speed multiplier (C3, C7) -/

theorem abs_ovalVerticalPosition_le (angle : ℝ) :
    |ovalVerticalPosition angle| ≤ 1 / 10 := by
  simp only [ovalVerticalPosition, OVAL_ELLIPTICAL_FACTOR, jsSign]
  have hs : |Real.sin angle| ≤ 1 := by
    rw [abs_le]; exact ⟨Real.neg_one_le_sin angle, Real.sin_le_one angle⟩
  have hpow0 : 0 ≤ |Real.sin angle| ^ ((1:ℝ) / (1 + 3)) :=
    Real.rpow_nonneg (abs_nonneg _) _
  have hpow1 : |Real.sin angle| ^ ((1:ℝ) / (1 + 3)) ≤ 1 :=
    Real.rpow_le_one (abs_nonneg _) hs (by norm_num)
  have hsgn : |if Real.sin angle < 0 then (-1:ℝ)
      else if 0 < Real.sin angle then 1 else 0| ≤ 1 := by
    split_ifs <;> norm_num
  have hc : |(1:ℝ) - 3 * (3 / 10)| = 1 / 10 := by
    rw [abs_of_nonneg] <;> norm_num
  rw [abs_mul, abs_mul, hc, abs_of_nonneg hpow0]
  have h1 : |if Real.sin angle < 0 then (-1:ℝ)
      else if 0 < Real.sin angle then 1 else 0| *
        (|Real.sin angle| ^ ((1:ℝ) / (1 + 3))) ≤ 1 :=
    mul_le_one hsgn hpow0 hpow1
  linarith

theorem speedMultiplier_eq_one (v : ℝ) : speedMultiplier v = 1 := by
  have h := abs_ovalVerticalPosition_le (baseRotation v)
  simp only [speedMultiplier]
  rw [if_neg (not_lt.mpr (by linarith))]

/-- C3 counterexample: there is no virtualScroll at which the oval vertical
position exceeds the 0.6 threshold in magnitude and the wheel input is
scaled by a multiplier below 1, refuting the claim's existential part. -/
theorem speed_threshold_never_crossed :
    ¬ ∃ v : ℝ, 6 / 10 < |ovalVerticalPosition (baseRotation v)| ∧
        speedMultiplier v < 1 := by
  rintro ⟨v, hv, -⟩
  have := abs_ovalVerticalPosition_le (baseRotation v)
  linarith

/-- C3 (amended): with `OVAL_ELLIPTICAL_FACTOR = 3` the oval vertical
position has magnitude at most `1 - 3*0.3 = 0.1` for every virtualScroll,
so the 0.6 threshold is never exceeded and the wheel speed multiplier
equals 1 at every scroll value. -/
theorem speed_multiplier_always_one (v : ℝ) :
    |ovalVerticalPosition (baseRotation v)| ≤ 1 / 10 ∧ speedMultiplier v = 1 :=
  ⟨abs_ovalVerticalPosition_le (baseRotation v), speedMultiplier_eq_one v⟩

/-! ## Motion controller (C6, C7) -/

theorem easeStep_of_gt {t v : ℝ} (h : 1 / 120 < |v - t|) :
    easeStep t v = v + (t - v) * EASE := by
  simp only [easeStep]
  rw [if_pos]
  have he : v + (t - v) * EASE - v = (t - v) * EASE := by ring
  rw [he, abs_mul, abs_sub_comm t v]
  have : |EASE| = 12 / 100 := by
    rw [EASE, abs_of_nonneg] <;> norm_num
  rw [this]
  linarith

theorem easeStep_of_le {t v : ℝ} (h : |v - t| ≤ 1 / 120) : easeStep t v = v := by
  simp only [easeStep]
  rw [if_neg]
  rw [not_lt]
  have he : v + (t - v) * EASE - v = (t - v) * EASE := by ring
  rw [he, abs_mul, abs_sub_comm t v]
  have : |EASE| = 12 / 100 := by
    rw [EASE, abs_of_nonneg] <;> norm_num
  rw [this]
  linarith [abs_nonneg (v - t)]

theorem easeStep_dist_of_gt {t v : ℝ} (h : 1 / 120 < |v - t|) :
    |easeStep t v - t| = 22 / 25 * |v - t| := by
  rw [easeStep_of_gt h]
  have he : v + (t - v) * EASE - t = 22 / 25 * (v - t) := by
    rw [EASE]; ring
  rw [he, abs_mul, abs_of_nonneg (by norm_num : (0:ℝ) ≤ 22 / 25)]

theorem easeIter_dist_le (t v : ℝ) (n : ℕ) :
    |(easeStep t)^[n] v - t| ≤ max (1 / 120) ((22 / 25) ^ n * |v - t|) := by
  induction n with
  | zero =>
    simp only [Function.iterate_zero, id_eq, pow_zero, one_mul]
    exact le_max_right _ _
  | succ n ih =>
    rw [Function.iterate_succ_apply']
    rcases le_or_lt |(easeStep t)^[n] v - t| (1 / 120) with hle | hgt
    · rw [easeStep_of_le hle]
      exact le_trans hle (le_max_left _ _)
    · rw [easeStep_dist_of_gt hgt]
      have h1 : (22:ℝ) / 25 * |(easeStep t)^[n] v - t| ≤
          22 / 25 * max (1 / 120) ((22 / 25) ^ n * |v - t|) :=
        mul_le_mul_of_nonneg_left ih (by norm_num)
      have h2 : (22:ℝ) / 25 * max (1 / 120) ((22 / 25) ^ n * |v - t|) ≤
          max (1 / 120) ((22 / 25) ^ (n + 1) * |v - t|) := by
        rw [mul_max_of_nonneg _ _ (by norm_num : (0:ℝ) ≤ 22 / 25)]
        apply max_le_max
        · norm_num
        · rw [pow_succ]
          apply le_of_eq
          ring
      linarith

/-- C6 counterexample: with scrollTarget 0 and virtualScroll -1/125 the
distance to the target is nonzero, yet the ease step leaves virtualScroll
unchanged (the update is suppressed because |next - v| = 0.00096 is below
the 0.001 cutoff), so the distance does not strictly decrease and never
falls below e.g. 1/250. -/
theorem ease_step_stalls :
    easeStep 0 (-(1 / 125)) = -(1 / 125) ∧ |(-(1 / 125) : ℝ) - 0| ≠ 0 := by
  constructor
  · apply easeStep_of_le
    have : (-(1 / 125) : ℝ) - 0 = -(1 / 125) := by ring
    rw [this, abs_neg, abs_of_nonneg] <;> norm_num
  · have : (-(1 / 125) : ℝ) - 0 = -(1 / 125) := by ring
    rw [this, abs_neg, abs_of_nonneg] <;> norm_num

/-- C6 (amended): with the target held fixed and velocity zero, the per-tick
ease step contracts the distance |virtualScroll - scrollTarget| by the exact
factor 22/25 whenever that distance exceeds 1/120 (= 0.001/EASE), hence
strictly decreases it there; and for every epsilon above 1/120 the distance
falls below epsilon within a bounded number of ticks.  Below distance 1/120
the step leaves virtualScroll unchanged, so the unrestricted claim fails. -/
theorem ease_contraction_and_convergence :
    (∀ t v : ℝ, 1 / 120 < |v - t| →
      |easeStep t v - t| = 22 / 25 * |v - t| ∧ |easeStep t v - t| < |v - t|) ∧
    (∀ t v ε : ℝ, 1 / 120 < ε → ∃ n : ℕ, |(easeStep t)^[n] v - t| < ε) := by
  constructor
  · intro t v h
    have hd := easeStep_dist_of_gt h
    refine ⟨hd, ?_⟩
    rw [hd]
    nlinarith
  · intro t v ε hε
    have hd0 : (0:ℝ) ≤ |v - t| := abs_nonneg _
    have hεpos : (0:ℝ) < ε := lt_trans (by norm_num) hε
    obtain ⟨n, hn⟩ := exists_pow_lt_of_lt_one
      (div_pos hεpos (by linarith : (0:ℝ) < |v - t| + 1))
      (by norm_num : (22:ℝ) / 25 < 1)
    refine ⟨n, lt_of_le_of_lt (easeIter_dist_le t v n) (max_lt (by linarith) ?_)⟩
    have h1 : (22 / 25 : ℝ) ^ n * (|v - t| + 1) < ε :=
      (lt_div_iff (by linarith : (0:ℝ) < |v - t| + 1)).mp hn
    nlinarith [pow_nonneg (by norm_num : (0:ℝ) ≤ 22 / 25) n]

/-- Witness for the amended C6 theorem: contraction at (target, v) = (0, 1)
and convergence below epsilon = 1 from (0, 1). -/
theorem ease_contraction_and_convergence_witness :
    (|easeStep 0 1 - 0| = 22 / 25 * |(1:ℝ) - 0| ∧
      |easeStep 0 1 - 0| < |(1:ℝ) - 0|) ∧
    ∃ n : ℕ, |(easeStep 0)^[n] 1 - 0| < 1 :=
  ⟨ease_contraction_and_convergence.1 0 1 (by rw [abs_of_nonneg] <;> norm_num),
   ease_contraction_and_convergence.2 0 1 1 (by norm_num)⟩

/-- C7: a wheel event with deltaY = -100 under sensitivity 0.25 increases
velocity by exactly 25 (the speed multiplier is identically 1, so this holds
before and after it is applied); each subsequent tick multiplies a live
velocity by 0.94, and as soon as the decayed magnitude falls below 0.02 the
velocity is set to exactly 0, where it then stays. -/
theorem wheel_velocity_and_momentum :
    (∀ scroll vel : ℝ, wheelVelocityUpdate scroll vel (-100) = vel + 25) ∧
    (∀ v : ℝ, v ≠ 0 → MIN_VELOCITY ≤ |v * MOMENTUM_DECAY| →
      velocityStep v = v * MOMENTUM_DECAY) ∧
    (∀ v : ℝ, |v * MOMENTUM_DECAY| < MIN_VELOCITY → velocityStep v = 0) ∧
    velocityStep 0 = 0 := by
  refine ⟨?_, ?_, ?_, ?_⟩
  · intro scroll vel
    rw [wheelVelocityUpdate, speedMultiplier_eq_one, SCROLL_SENSITIVITY]
    ring
  · intro v hv hge
    simp only [velocityStep]
    rw [if_pos hv, if_neg (not_lt.mpr hge)]
  · intro v hlt
    simp only [velocityStep]
    by_cases hv : v = 0
    · rw [if_neg (by simp [hv])]
      exact hv
    · rw [if_pos hv, if_pos hlt]
  · simp [velocityStep]

/-- Witness for the C7 theorem: the wheel impulse at rest, decay of
velocity 1, zero-clamping of velocity 0.01, and persistence of 0. -/
theorem wheel_velocity_and_momentum_witness :
    wheelVelocityUpdate 0 0 (-100) = 0 + 25 ∧
      velocityStep 1 = 1 * MOMENTUM_DECAY ∧
      velocityStep (1 / 100) = 0 ∧ velocityStep 0 = 0 :=
  ⟨wheel_velocity_and_momentum.1 0 0,
   wheel_velocity_and_momentum.2.1 1 (by norm_num)
     (by rw [MOMENTUM_DECAY, MIN_VELOCITY, abs_of_nonneg] <;> norm_num),
   wheel_velocity_and_momentum.2.2.1 (1 / 100)
     (by rw [MOMENTUM_DECAY, MIN_VELOCITY, abs_of_nonneg] <;> norm_num),
   wheel_velocity_and_momentum.2.2.2⟩

/-! ## Rotation normalization and the z-index order (C1) -/

theorem jsMod_eq_self {x y : ℝ} (h0 : 0 ≤ x) (hxy : x < y) : jsMod x y = x := by
  have hy : 0 < y := lt_of_le_of_lt h0 hxy
  simp only [jsMod, jsTrunc]
  rw [if_pos (div_nonneg h0 hy.le)]
  have hfl : ⌊x / y⌋ = 0 :=
    Int.floor_eq_zero_iff.mpr (Set.mem_Ico.mpr ⟨div_nonneg h0 hy.le, (div_lt_one hy).mpr hxy⟩)
  rw [hfl]
  simp

theorem jsMod_add_right {x y : ℝ} (h0 : 0 ≤ x) (hxy : x < y) : jsMod (x + y) y = x := by
  have hy : 0 < y := lt_of_le_of_lt h0 hxy
  simp only [jsMod, jsTrunc]
  rw [if_pos (div_nonneg (by linarith) hy.le)]
  have hd : (x + y) / y = x / y + 1 := by field_simp
  have hfl : ⌊(x + y) / y⌋ = 1 := by
    rw [hd, Int.floor_add_one,
      Int.floor_eq_zero_iff.mpr
        (Set.mem_Ico.mpr ⟨div_nonneg h0 hy.le, (div_lt_one hy).mpr hxy⟩)]
    norm_num
  rw [hfl]
  push_cast
  ring

theorem baseRotation_of_small {v : ℝ} (h0 : 0 ≤ v * ROTATION_SPEED)
    (h1 : v * ROTATION_SPEED < 2 * Real.pi) :
    baseRotation v = v * ROTATION_SPEED := by
  unfold baseRotation
  rw [jsMod_eq_self h0 h1, jsMod_add_right h0 h1]

theorem baseRotation_zero : baseRotation 0 = 0 := by
  have h := baseRotation_of_small (v := 0) (by norm_num)
    (by rw [zero_mul]; positivity)
  rw [h, zero_mul]

theorem baseRotation_25 : baseRotation 25 = 1 / 200 := by
  have hval : (25:ℝ) * ROTATION_SPEED = 1 / 200 := by
    rw [ROTATION_SPEED]; norm_num
  have h := baseRotation_of_small (v := 25) (by rw [hval]; norm_num)
    (by rw [hval]; have := Real.pi_gt_three; linarith)
  rw [h, hval]

/-- C1 (amended): at any frame and for any layer pair, if layer `a` has
strictly greater frontness than layer `b` and `a`'s index is not larger than
`b`'s, then `a`'s computed z-index is strictly greater.  (Strict z-ordering
by frontness alone fails when the fronter layer has the larger index, since
the depth-offset term `(N - index)*100` outweighs `index*10`.) -/
theorem zIndex_order_of_index_le (N : ℕ) (v : ℝ) (a b : ℕ) (hab : a ≤ b)
    (hf : frontness N v b < frontness N v a) :
    zIndexOf N v b < zIndexOf N v a := by
  have hfloor : ⌊frontness N v b * 100000⌋ ≤ ⌊frontness N v a * 100000⌋ :=
    Int.floor_le_floor (mul_le_mul_of_nonneg_right hf.le (by norm_num))
  rcases eq_or_lt_of_le hab with rfl | hlt
  · exact absurd hf (lt_irrefl _)
  · have hz : (a:ℤ) < (b:ℤ) := by exact_mod_cast hlt
    unfold zIndexOf
    linarith

theorem frontness_gap_at_zero : frontness 60 0 15 < frontness 60 0 1 := by
  unfold frontness
  rw [baseRotation_zero]
  have h15 : (15:ℝ) / 60 * Real.pi * 2 + 0 = Real.pi / 2 := by ring
  have h1 : (1:ℝ) / 60 * Real.pi * 2 + 0 = Real.pi / 30 := by ring
  push_cast
  rw [h15, h1, Real.cos_pi_div_two]
  have hc : 0 < Real.cos (Real.pi / 30) := by
    apply Real.cos_pos_of_mem_Ioo
    constructor
    · have := Real.pi_pos; linarith
    · have := Real.pi_pos; linarith
  linarith

/-- Witness for the amended C1 theorem: at scroll 0 with N = 60, layer 1 is
fronter than layer 15 and indeed gets the larger z-index. -/
theorem zIndex_order_of_index_le_witness :
    frontness 60 0 15 < frontness 60 0 1 ∧ zIndexOf 60 0 15 < zIndexOf 60 0 1 :=
  ⟨frontness_gap_at_zero,
   zIndex_order_of_index_le 60 0 1 15 (by norm_num) frontness_gap_at_zero⟩

theorem frontness_at_25_45 :
    frontness 60 25 45 = (Real.sin (1 / 200) + 1) / 2 := by
  unfold frontness
  rw [baseRotation_25]
  push_cast
  have hang : (45:ℝ) / 60 * Real.pi * 2 + 1 / 200
      = Real.pi + (Real.pi / 2 + 1 / 200) := by ring
  rw [hang, Real.cos_add, Real.cos_add, Real.cos_pi, Real.sin_pi,
    Real.cos_pi_div_two, Real.sin_pi_div_two]
  ring

theorem frontness_at_25_15 :
    frontness 60 25 15 = (1 - Real.sin (1 / 200)) / 2 := by
  unfold frontness
  rw [baseRotation_25]
  push_cast
  have hang : (15:ℝ) / 60 * Real.pi * 2 + 1 / 200 = Real.pi / 2 + 1 / 200 := by
    ring
  rw [hang, Real.cos_add, Real.cos_pi_div_two, Real.sin_pi_div_two]
  ring

/-- C1 counterexample: at virtualScroll 25 with N = 60 layers, layer 45 has
strictly greater frontness than layer 15 (both well above the 0.1 culling
threshold), yet its computed z-index is strictly smaller, because the
depth-offset term `(N - index)*100` dominates the small frontness gap. -/
theorem zIndex_frontness_order_violation :
    frontness 60 25 15 < frontness 60 25 45 ∧
      CULLING_FRONTNESS_THRESHOLD ≤ frontness 60 25 15 ∧
      CULLING_FRONTNESS_THRESHOLD ≤ frontness 60 25 45 ∧
      zIndexOf 60 25 45 < zIndexOf 60 25 15 := by
  have hs0 : 0 < Real.sin (1 / 200) :=
    Real.sin_pos_of_pos_of_lt_pi (by norm_num)
      (by have := Real.pi_gt_three; linarith)
  have hs1 : Real.sin (1 / 200) < 1 / 200 := Real.sin_lt (by norm_num)
  have h45 := frontness_at_25_45
  have h15 := frontness_at_25_15
  refine ⟨?_, ?_, ?_, ?_⟩
  · rw [h45, h15]; linarith
  · rw [h15, CULLING_FRONTNESS_THRESHOLD]; linarith
  · rw [h45, CULLING_FRONTNESS_THRESHOLD]; linarith
  · have hA : ⌊frontness 60 25 45 * 100000⌋ < 50250 := by
      apply Int.floor_lt.mpr
      rw [h45]
      push_cast
      linarith
    have hB : (49750:ℤ) ≤ ⌊frontness 60 25 15 * 100000⌋ := by
      apply Int.le_floor.mpr
      rw [h15]
      push_cast
      linarith
    unfold zIndexOf
    push_cast
    linarith

/-! ## Palette interpolation (C8, C10) -/

theorem get?_eq_some_getD (l : List Color) (n : ℕ) (h : n < l.length) :
    l.get? n = some (l.getD n default) := by
  rw [List.getD_eq_getElem?_getD, List.get?_eq_getElem?, List.getElem?_eq_getElem h]
  rfl

theorem lerpColor_zero (c1 c2 : Color) : lerpColor c1 c2 0 = c1 := by
  simp [lerpColor]

theorem getColorForDepth_nonpos (P : List Color) {d : ℚ} (hd : d ≤ 0) :
    getColorForDepth d P = P.getD 0 default := by
  simp only [getColorForDepth]
  rw [if_pos hd]

theorem getColorForDepth_ge_one (P : List Color) {d : ℚ} (hd : 1 ≤ d) :
    getColorForDepth d P = P.getD (P.length - 1) default := by
  simp only [getColorForDepth]
  rw [if_neg (by linarith), if_pos hd]

theorem getColorForDepth_interior (P : List Color) {d : ℚ} (hP : 2 ≤ P.length)
    (h0 : 0 < d) (h1 : d < 1) :
    ⌊d * ((P.length : ℚ) - 1)⌋.toNat < P.length - 1 ∧
    getColorForDepth d P =
      lerpColor (P.getD ⌊d * ((P.length : ℚ) - 1)⌋.toNat default)
        (P.getD (⌊d * ((P.length : ℚ) - 1)⌋.toNat + 1) default)
        (d * ((P.length : ℚ) - 1) - (⌊d * ((P.length : ℚ) - 1)⌋ : ℚ)) := by
  have hlenQ : (2:ℚ) ≤ (P.length : ℚ) := by exact_mod_cast hP
  have hs0 : 0 < d * ((P.length : ℚ) - 1) := mul_pos h0 (by linarith)
  have hs1 : d * ((P.length : ℚ) - 1) < (P.length : ℚ) - 1 := by nlinarith
  have hfl0 : 0 ≤ ⌊d * ((P.length : ℚ) - 1)⌋ := Int.floor_nonneg.mpr hs0.le
  have hflA : ⌊d * ((P.length : ℚ) - 1)⌋ < (P.length : ℤ) - 1 := by
    apply Int.floor_lt.mpr
    push_cast
    exact hs1
  constructor
  · omega
  · simp only [getColorForDepth]
    rw [if_neg (by linarith), if_neg (by linarith), if_neg (not_le.mpr hflA)]

theorem getColorForDepth_boundary (P : List Color) {k : ℕ} (hP : 2 ≤ P.length)
    (hk : k ≤ P.length - 1) :
    getColorForDepth ((k : ℚ) / ((P.length : ℚ) - 1)) P = P.getD k default := by
  have hlenQ : (2:ℚ) ≤ (P.length : ℚ) := by exact_mod_cast hP
  have hden : (0:ℚ) < (P.length : ℚ) - 1 := by linarith
  rcases Nat.eq_zero_or_pos k with rfl | hk0
  · simp only [Nat.cast_zero, zero_div]
    exact getColorForDepth_nonpos P le_rfl
  · rcases eq_or_lt_of_le hk with hlast | hmid
    · have hcast : ((k : ℚ)) = (P.length : ℚ) - 1 := by
        rw [hlast]
        have h1 : 1 ≤ P.length := by omega
        push_cast [Nat.cast_sub h1]
        ring
      rw [hcast, div_self (ne_of_gt hden), getColorForDepth_ge_one P le_rfl, hlast]
    · have h0 : 0 < (k : ℚ) / ((P.length : ℚ) - 1) :=
        div_pos (by exact_mod_cast hk0) hden
      have h1 : (k : ℚ) / ((P.length : ℚ) - 1) < 1 := by
        rw [div_lt_one hden]
        have h2 : k + 2 ≤ P.length := by omega
        have h2Q : (k : ℚ) + 2 ≤ (P.length : ℚ) := by exact_mod_cast h2
        linarith
      obtain ⟨-, heq⟩ := getColorForDepth_interior P hP h0 h1
      have hscaled : (k : ℚ) / ((P.length : ℚ) - 1) * ((P.length : ℚ) - 1) = (k : ℚ) :=
        div_mul_cancel₀ _ (ne_of_gt hden)
      have hfl : ⌊(k : ℚ) / ((P.length : ℚ) - 1) * ((P.length : ℚ) - 1)⌋ = (k : ℤ) := by
        rw [hscaled]
        exact Int.floor_natCast k
      rw [heq, hfl, hscaled]
      have ht : (k : ℚ) - ((k : ℤ) : ℚ) = 0 := by push_cast; ring
      rw [ht, Int.toNat_natCast, lerpColor_zero]

/-- C8: for a palette with at least 2 entries, in exact arithmetic:
depths at most 0 give the first entry, depths at least 1 give the last,
depth exactly k/(len-1) gives entry k exactly, and every interior depth is
the linear interpolation between the floor entry of d*(len-1) and its
successor with the fractional part as weight. -/
theorem palette_interpolation_exact (P : List Color) (hP : 2 ≤ P.length) :
    (∀ d : ℚ, d ≤ 0 → getColorForDepth d P = P.getD 0 default) ∧
    (∀ d : ℚ, 1 ≤ d → getColorForDepth d P = P.getD (P.length - 1) default) ∧
    (∀ k : ℕ, k ≤ P.length - 1 →
      getColorForDepth ((k : ℚ) / ((P.length : ℚ) - 1)) P = P.getD k default) ∧
    (∀ d : ℚ, 0 < d → d < 1 →
      ⌊d * ((P.length : ℚ) - 1)⌋.toNat < P.length - 1 ∧
      getColorForDepth d P =
        lerpColor (P.getD ⌊d * ((P.length : ℚ) - 1)⌋.toNat default)
          (P.getD (⌊d * ((P.length : ℚ) - 1)⌋.toNat + 1) default)
          (d * ((P.length : ℚ) - 1) - (⌊d * ((P.length : ℚ) - 1)⌋ : ℚ))) :=
  ⟨fun _ hd => getColorForDepth_nonpos P hd,
   fun _ hd => getColorForDepth_ge_one P hd,
   fun _ hk => getColorForDepth_boundary P hP hk,
   fun _ h0 h1 => getColorForDepth_interior P hP h0 h1⟩

/-- Witness for the C8 theorem on the first two palette entries of App.tsx:
depth 0 returns the first entry exactly. -/
theorem palette_interpolation_exact_witness :
    getColorForDepth 0 [(⟨15, 45, 12, 360⟩ : Color), ⟨25, 40, 15, 360⟩] =
      ([(⟨15, 45, 12, 360⟩ : Color), ⟨25, 40, 15, 360⟩]).getD 0 default :=
  (palette_interpolation_exact [⟨15, 45, 12, 360⟩, ⟨25, 40, 15, 360⟩]
    (by simp)).1 0 le_rfl

/-- C10: `getColorForDepth` is total on every non-empty palette: the checked
variant (which returns `none` on any out-of-bounds palette read) agrees with
it everywhere, and on a single-entry palette every depth returns that entry
(the division by length-1 degenerates instead of faulting). -/
theorem getColorForDepth_total :
    (∀ (d : ℚ) (c : Color), getColorForDepth d [c] = c) ∧
    (∀ (d : ℚ) (P : List Color), P ≠ [] →
      getColorForDepthChecked d P = some (getColorForDepth d P)) := by
  constructor
  · intro d c
    simp only [getColorForDepth]
    split_ifs with h1 h2 h3
    · rfl
    · rfl
    · rfl
    · exfalso
      apply h3
      simp
  · intro d P hP
    have hlen : 1 ≤ P.length := List.length_pos.mpr hP
    simp only [getColorForDepth, getColorForDepthChecked]
    split_ifs with h1 h2 h3
    · exact get?_eq_some_getD P 0 (by omega)
    · exact get?_eq_some_getD P (P.length - 1) (by omega)
    · exact get?_eq_some_getD P (P.length - 1) (by omega)
    · have hd0 : 0 < d := not_le.mp h1
      have hlenQ : (1:ℚ) ≤ (P.length : ℚ) := by exact_mod_cast hlen
      have hfl0 : 0 ≤ ⌊d * ((P.length : ℚ) - 1)⌋ :=
        Int.floor_nonneg.mpr (mul_nonneg hd0.le (by linarith))
      have hidx : ⌊d * ((P.length : ℚ) - 1)⌋ < (P.length : ℤ) - 1 := not_le.mp h3
      rw [get?_eq_some_getD P _ (by omega), get?_eq_some_getD P _ (by omega)]
      rfl

/-- Witness for the C10 theorem: a singleton palette at depth 1/2 and a
two-entry palette checked at depth 1/2. -/
theorem getColorForDepth_total_witness :
    getColorForDepth (1 / 2) [(⟨7, 8, 9, 360⟩ : Color)] = ⟨7, 8, 9, 360⟩ ∧
      getColorForDepthChecked (1 / 2) [(⟨7, 8, 9, 360⟩ : Color), ⟨1, 2, 3, 360⟩] =
        some (getColorForDepth (1 / 2) [(⟨7, 8, 9, 360⟩ : Color), ⟨1, 2, 3, 360⟩]) :=
  ⟨getColorForDepth_total.1 (1 / 2) ⟨7, 8, 9, 360⟩,
   getColorForDepth_total.2 (1 / 2) _ (List.cons_ne_nil _ _)⟩

/-! ## Terrain generation (C9) -/

theorem mountainColumns_length (p : ℕ → ℕ) (amp refY a b cAmp dAmp e : ℝ) :
    ∀ (n : ℕ) (dx : ℝ),
      (mountainColumns p amp refY a b cAmp dAmp e n dx).length = n := by
  intro n
  induction n with
  | zero => intro dx; rfl
  | succ n ih =>
    intro dx
    simp only [mountainColumns, List.length_cons, ih]

theorem mountainColumns_getD (p : ℕ → ℕ) (amp refY a b cAmp dAmp e : ℝ) :
    ∀ (n k : ℕ) (dx : ℝ), k < n →
      (mountainColumns p amp refY a b cAmp dAmp e n dx).getD k 0 =
        refY + 10 * amp * Real.sin (2 * (dx + 2 / 100 * k) / amp + a)
          + cAmp * amp * Real.sin (5 * (dx + 2 / 100 * k) / amp + b)
          + dAmp * amp * noise p (12 / 10 * (dx + 2 / 100 * k) / amp + e) 0
          + 17 / 10 * amp * noise p (10 * (dx + 2 / 100 * k)) 0 := by
  intro n
  induction n with
  | zero => intro k dx h; exact absurd h (Nat.not_lt_zero k)
  | succ n ih =>
    intro k dx hk
    cases k with
    | zero =>
      simp only [mountainColumns, List.getD_cons_zero, Nat.cast_zero]
      norm_num
    | succ k =>
      simp only [mountainColumns, List.getD_cons_succ]
      rw [ih k (dx + 2 / 100) (by omega)]
      push_cast
      ring_nf

/-- C9: for every width W at least 1 and all drawn parameters, the terrain
loop produces exactly W profile columns, and column x (with dx = 0.02*x and
the noise instance seeded by seed + layerIndex) equals
referenceY + 10*amp*sin(2dx/amp + a) + cAmp*amp*sin(5dx/amp + b)
+ dAmp*amp*noise(1.2dx/amp + e, 0) + 1.7*amp*noise(10dx, 0); in particular
width 800 yields an 800-entry profile. -/
theorem mountain_profile_heights (seed layerIndex : ℝ) (W : ℕ) (hW : 1 ≤ W)
    (amp refY a b cAmp dAmp e : ℝ) :
    (mountainHeights seed layerIndex W amp refY a b cAmp dAmp e).length = W ∧
    ∀ x : ℕ, x < W →
      (mountainHeights seed layerIndex W amp refY a b cAmp dAmp e).getD x 0 =
        refY + 10 * amp * Real.sin (2 * (2 / 100 * x) / amp + a)
          + cAmp * amp * Real.sin (5 * (2 / 100 * x) / amp + b)
          + dAmp * amp *
            (mkPerlin (seed + layerIndex)).noiseAt (12 / 10 * (2 / 100 * x) / amp + e) 0
          + 17 / 10 * amp * (mkPerlin (seed + layerIndex)).noiseAt (10 * (2 / 100 * x)) 0 := by
  constructor
  · exact mountainColumns_length _ _ _ _ _ _ _ _ W 0
  · intro x hx
    unfold mountainHeights
    rw [mountainColumns_getD _ _ _ _ _ _ _ _ W x 0 hx]
    simp only [Perlin.noiseAt]
    norm_num

/-- Witness for the C9 theorem: the end-to-end scenario seed 42, width 800,
amplitude 9, referenceY 500 produces an 800-entry height profile. -/
theorem mountain_profile_heights_witness :
    (mountainHeights 42 1 800 9 500 0 0 3 45 0).length = 800 :=
  (mountain_profile_heights 42 1 800 (by norm_num) 9 500 0 0 3 45 0).1

end Landscape
